import Mathlib

/-!
Shallow embedding of the Windows terminal backend
(`openhands/tools/terminal/terminal/windows_terminal.py`) together with the
small pieces of its environment that the backend relies on.  Python integers
are modelled as `Nat`, byte streams as `List Nat`, decoded text as `List Char`
or `String`, and the mutable backend object as an explicit record that every
operation maps to a new record.
-/

namespace WindowsTerminalModel

/-- Output buffer cell: `collections.deque(maxlen = cap)` holding decoded text
chunks.  `bufAppend` is `deque.append`: the new chunk goes to the right and,
when the deque is already at capacity, the oldest (leftmost) chunk is evicted.
The capacity `cap` stands for the fixed `HISTORY_LIMIT` constant. -/
def bufAppend (cap : Nat) (buf : List String) (chunk : String) : List String :=
  let b := buf ++ [chunk]
  b.drop (b.length - cap)

/-- One caller-visible operation on the output buffer: the reader side appends
a decoded chunk, the caller side drains (`clear = true`) or peeks
(`clear = false`), mirroring `WindowsTerminal._get_buffered_output`. -/
inductive BufOp where
  | append (chunk : String)
  | drain (clear : Bool)
deriving DecidableEq

/-- Effect of one buffer operation on the stored chunk list. -/
def bufStep (cap : Nat) (buf : List String) : BufOp → List String
  | .append chunk => bufAppend cap buf chunk
  | .drain c => if c then [] else buf

/-- Buffer contents after running a sequence of operations from the empty
buffer created in `WindowsTerminal.__init__`. -/
def bufRun (cap : Nat) (ops : List BufOp) : List String :=
  ops.foldl (bufStep cap) []

/-- Model of `WindowsTerminal._get_buffered_output`: snapshot the chunk list,
join it in arrival order, and clear it when asked to.  The first component is
the returned text, the second the buffer contents afterwards. -/
def get_buffered_output (buf : List String) (clear : Bool) : String × List String :=
  (String.join buf, if clear then [] else buf)

/-- Model of `WindowsTerminal.read_screen`: peek without clearing. -/
def read_screen_buf (buf : List String) : String :=
  (get_buffered_output buf false).1

theorem bufAppend_length_le (cap : Nat) (buf : List String) (chunk : String) :
    (bufAppend cap buf chunk).length ≤ cap := by
  simp only [bufAppend, List.length_drop]
  omega

theorem bufStep_length_le (cap : Nat) (buf : List String) (op : BufOp)
    (h : buf.length ≤ cap) : (bufStep cap buf op).length ≤ cap := by
  cases op with
  | append chunk => exact bufAppend_length_le cap buf chunk
  | drain c =>
    cases c <;> simp [bufStep, h]

theorem bufRun_go_length_le (cap : Nat) (ops : List BufOp) :
    ∀ buf : List String, buf.length ≤ cap →
      (ops.foldl (bufStep cap) buf).length ≤ cap := by
  induction ops with
  | nil => intro buf h; simpa using h
  | cons op rest ih =>
    intro buf h
    simpa using ih (bufStep cap buf op) (bufStep_length_le cap buf op h)

theorem bufAppend_full_evicts_oldest (cap : Nat) (buf : List String)
    (chunk : String) (hpos : 0 < cap) (hfull : buf.length = cap) :
    bufAppend cap buf chunk = buf.tail ++ [chunk] := by
  cases buf with
  | nil =>
    simp only [List.length_nil] at hfull
    omega
  | cons b bs =>
    simp only [bufAppend]
    have hlen : ((b :: bs) ++ [chunk]).length - cap = 1 := by
      simp only [List.length_cons] at hfull
      simp only [List.length_append, List.length_cons, List.length_nil]
      omega
    rw [hlen]
    simp

theorem bufAppend_not_full (cap : Nat) (buf : List String) (chunk : String)
    (h : buf.length < cap) : bufAppend cap buf chunk = buf ++ [chunk] := by
  simp only [bufAppend, List.length_append, List.length_singleton]
  have : buf.length + 1 - cap = 0 := by omega
  rw [this]
  simp

/-- Unicode replacement character U+FFFD, substituted for undecodable bytes. -/
def replacementChar : Char := Char.ofNat 0xFFFD

/-- UTF-8 continuation byte test (`0x80 ≤ b ≤ 0xBF`). -/
def isCont (b : Nat) : Bool := 0x80 ≤ b && b ≤ 0xBF

/-- Lead byte of a two-byte UTF-8 sequence. -/
def twoByteLead (b : Nat) : Bool := 0xC2 ≤ b && b ≤ 0xDF

/-- Lead byte of a three-byte UTF-8 sequence. -/
def threeByteLead (b : Nat) : Bool := 0xE0 ≤ b && b ≤ 0xEF

/-- Lead byte of a four-byte UTF-8 sequence. -/
def fourByteLead (b : Nat) : Bool := 0xF0 ≤ b && b ≤ 0xF4

/-- Valid second byte for the given lead byte (the constrained ranges exclude
overlong encodings, surrogates and codepoints above U+10FFFF). -/
def validSecond (lead b : Nat) : Bool :=
  if lead = 0xE0 then 0xA0 ≤ b && b ≤ 0xBF
  else if lead = 0xED then 0x80 ≤ b && b ≤ 0x9F
  else if lead = 0xF0 then 0x90 ≤ b && b ≤ 0xBF
  else if lead = 0xF4 then 0x80 ≤ b && b ≤ 0x8F
  else isCont b

/-- Codepoint assembled from a two-byte UTF-8 sequence. -/
def char2 (b c : Nat) : Char := Char.ofNat ((b - 0xC0) * 0x40 + (c - 0x80))

/-- Codepoint assembled from a three-byte UTF-8 sequence. -/
def char3 (b c d : Nat) : Char :=
  Char.ofNat ((b - 0xE0) * 0x1000 + (c - 0x80) * 0x40 + (d - 0x80))

/-- Codepoint assembled from a four-byte UTF-8 sequence. -/
def char4 (b c d e : Nat) : Char :=
  Char.ofNat ((b - 0xF0) * 0x40000 + (c - 0x80) * 0x1000
    + (d - 0x80) * 0x40 + (e - 0x80))

/-- Modelled from the spec: the carried state of the incremental byte→text
decoder created in `WindowsTerminal.__init__` as
`codecs.getincrementaldecoder("utf-8")(errors="replace")` (the decoder itself
is Python standard-library code, not part of the repository sources): the
partial multi-byte sequence carried across calls, at most a lead byte and two
continuation bytes. -/
inductive Pend where
  | empty
  | one (b : Nat)
  | two (b c : Nat)
  | three (b c d : Nat)
deriving DecidableEq

/-- Handling of one input byte when no partial sequence is pending: ASCII is
emitted directly, a lead byte becomes pending, anything else (stray
continuation byte, 0xC0/0xC1, 0xF5–0xFF) is replaced. -/
def utf8StepFresh (x : Nat) : Pend × List Char :=
  if x ≤ 0x7F then (.empty, [Char.ofNat x])
  else if twoByteLead x || threeByteLead x || fourByteLead x then (.one x, [])
  else (.empty, [replacementChar])

/-- Modelled from the spec: one byte of the incremental UTF-8 decoder with
replacement-character error handling.  An invalid byte ends the pending
sequence with a single replacement character (maximal-subpart policy) and is
then reconsidered as the start of a fresh sequence. -/
def utf8Step : Pend → Nat → Pend × List Char
  | .empty, x => utf8StepFresh x
  | .one b, x =>
    if twoByteLead b then
      if isCont x then (.empty, [char2 b x])
      else ((utf8StepFresh x).1, replacementChar :: (utf8StepFresh x).2)
    else
      if validSecond b x then (.two b x, [])
      else ((utf8StepFresh x).1, replacementChar :: (utf8StepFresh x).2)
  | .two b c, x =>
    if threeByteLead b then
      if isCont x then (.empty, [char3 b c x])
      else ((utf8StepFresh x).1, replacementChar :: (utf8StepFresh x).2)
    else
      if isCont x then (.three b c x, [])
      else ((utf8StepFresh x).1, replacementChar :: (utf8StepFresh x).2)
  | .three b c d, x =>
    if isCont x then (.empty, [char4 b c d x])
    else ((utf8StepFresh x).1, replacementChar :: (utf8StepFresh x).2)

/-- Folding step accumulating decoded characters. -/
def decodeStep (acc : Pend × List Char) (x : Nat) : Pend × List Char :=
  ((utf8Step acc.1 x).1, acc.2 ++ (utf8Step acc.1 x).2)

/-- Model of one `decoder.decode(chunk, False)` call in
`WindowsTerminal._read_output`: consume a byte chunk, returning the new
carried state and the decoded text. -/
def decodeBytes (st : Pend) (bs : List Nat) : Pend × List Char :=
  bs.foldl decodeStep (st, [])

/-- Final flush of the decoder (`decoder.decode(b"", True)`): a pending
incomplete sequence becomes a single replacement character. -/
def flushPend : Pend → List Char
  | .empty => []
  | _ => [replacementChar]

/-- Folding step feeding whole chunks to the decoder, as the background
reader thread does once per `stdout.read` call. -/
def chunkStep (acc : Pend × List Char) (ck : List Nat) : Pend × List Char :=
  ((decodeBytes acc.1 ck).1, acc.2 ++ (decodeBytes acc.1 ck).2)

/-- Text produced by the background reader for a given sequence of raw read
chunks, including the final flush. -/
def decodeChunks (chunks : List (List Nat)) : List Char :=
  (chunks.foldl chunkStep (.empty, [])).2
    ++ flushPend (chunks.foldl chunkStep (.empty, [])).1

/-- Decoding the whole byte stream in one call, including the final flush. -/
def decodeAll (bs : List Nat) : List Char :=
  (decodeBytes .empty bs).2 ++ flushPend (decodeBytes .empty bs).1

theorem decodeBytes_shift (bs : List Nat) :
    ∀ (st : Pend) (o : List Char),
      bs.foldl decodeStep (st, o)
        = ((decodeBytes st bs).1, o ++ (decodeBytes st bs).2) := by
  induction bs with
  | nil => intro st o; simp [decodeBytes]
  | cons x rest ih =>
    intro st o
    simp only [decodeBytes, List.foldl_cons, decodeStep]
    rw [ih (utf8Step st x).1 (o ++ (utf8Step st x).2),
      ih (utf8Step st x).1 ([] ++ (utf8Step st x).2)]
    simp

theorem decodeBytes_append (st : Pend) (xs ys : List Nat) :
    decodeBytes st (xs ++ ys)
      = ((decodeBytes (decodeBytes st xs).1 ys).1,
         (decodeBytes st xs).2 ++ (decodeBytes (decodeBytes st xs).1 ys).2) := by
  simp only [decodeBytes, List.foldl_append]
  have h := decodeBytes_shift ys (decodeBytes st xs).1 (decodeBytes st xs).2
  simpa [decodeBytes] using h

theorem chunkFold_shift (chunks : List (List Nat)) :
    ∀ (st : Pend) (o : List Char),
      chunks.foldl chunkStep (st, o)
        = ((chunks.foldl chunkStep (st, [])).1,
           o ++ (chunks.foldl chunkStep (st, [])).2) := by
  induction chunks with
  | nil => intro st o; simp
  | cons ck rest ih =>
    intro st o
    simp only [List.foldl_cons, chunkStep]
    rw [ih (decodeBytes st ck).1 (o ++ (decodeBytes st ck).2),
      ih (decodeBytes st ck).1 ([] ++ (decodeBytes st ck).2)]
    simp

theorem chunkFold_eq_join (chunks : List (List Nat)) :
    ∀ st : Pend,
      chunks.foldl chunkStep (st, []) = decodeBytes st chunks.flatten := by
  induction chunks with
  | nil => intro st; simp [decodeBytes]
  | cons ck rest ih =>
    intro st
    simp only [List.foldl_cons, chunkStep, List.flatten_cons]
    rw [chunkFold_shift rest (decodeBytes st ck).1 ([] ++ (decodeBytes st ck).2),
      ih (decodeBytes st ck).1, decodeBytes_append st ck rest.flatten]
    simp

theorem bufRun_appends_in_order_aux (cap : Nat) (chunks : List String) :
    ∀ buf : List String, buf.length + chunks.length ≤ cap →
      (chunks.map BufOp.append).foldl (bufStep cap) buf = buf ++ chunks := by
  induction chunks with
  | nil => intro buf _; simp
  | cons c rest ih =>
    intro buf h
    simp only [List.length_cons] at h
    simp only [List.map_cons, List.foldl_cons, bufStep]
    rw [bufAppend_not_full cap buf c (by omega)]
    rw [ih (buf ++ [c]) (by simp; omega)]
    simp

/-- C3: for every byte stream split into arbitrary chunk boundaries, the
background reader's incremental decoder produces the same text as decoding the
whole stream at once; a multi-byte UTF-8 character split exactly across two
read chunks (here `é` = `C3 A9`) is reconstructed losslessly, and an
undecodable byte yields the replacement character U+FFFD instead of a
failure. -/
theorem c3_incremental_decoding_chunking_invariant :
    (∀ chunks : List (List Nat), decodeChunks chunks = decodeAll chunks.flatten)
      ∧ decodeChunks [[0xC3], [0xA9]] = [Char.ofNat 0xE9]
      ∧ decodeAll [0xC3, 0xA9] = [Char.ofNat 0xE9]
      ∧ decodeAll [0xFF, 0x41] = [replacementChar, Char.ofNat 0x41] := by
  refine ⟨?_, by decide, by decide, by decide⟩
  intro chunks
  simp only [decodeChunks, decodeAll, chunkFold_eq_join]

/-- C2: after any sequence of append and drain operations starting from the
empty buffer, the buffer holds at most its fixed capacity of chunks, and an
append to a full buffer of positive capacity evicts the oldest chunk first. -/
theorem c2_output_buffer_bounded (cap : Nat) :
    (∀ ops : List BufOp, (bufRun cap ops).length ≤ cap)
      ∧ (∀ (buf : List String) (chunk : String), 0 < cap → buf.length = cap →
          bufAppend cap buf chunk = buf.tail ++ [chunk]) := by
  constructor
  · intro ops
    exact bufRun_go_length_le cap ops [] (by simp)
  · intro buf chunk hpos hfull
    exact bufAppend_full_evicts_oldest cap buf chunk hpos hfull

theorem c2_output_buffer_bounded_witness :
    (0 : Nat) < 2 ∧ (["a", "b"] : List String).length = 2
      ∧ bufAppend 2 ["a", "b"] "c" = ["b", "c"] := by
  refine ⟨by decide, by decide, ?_⟩
  have h := (c2_output_buffer_bounded 2).2 ["a", "b"] "c" (by decide) (by decide)
  simpa using h

/-- C9: draining returns the snapshot of all buffered chunks joined in arrival
order; `clear = true` additionally empties the buffer, while `clear = false`
(the peek used by the poll loop via `read_screen`) returns the same joined
text and leaves the buffer unchanged; moreover appends within capacity keep
the chunks in arrival order. -/
theorem c9_drain_returns_join_in_arrival_order (cap : Nat) :
    (∀ buf : List String,
        get_buffered_output buf true = (String.join buf, [])
          ∧ get_buffered_output buf false = (String.join buf, buf)
          ∧ read_screen_buf buf = (get_buffered_output buf true).1)
      ∧ (∀ chunks : List String, chunks.length ≤ cap →
          bufRun cap (chunks.map BufOp.append) = chunks) := by
  constructor
  · intro buf
    exact ⟨rfl, rfl, rfl⟩
  · intro chunks h
    have := bufRun_appends_in_order_aux cap chunks [] (by simpa using h)
    simpa [bufRun] using this

theorem c9_drain_witness :
    (["a", "b", "c"] : List String).length ≤ 3
      ∧ bufRun 3 (["a", "b", "c"].map BufOp.append) = ["a", "b", "c"] :=
  ⟨by decide,
    (c9_drain_returns_join_in_arrival_order 3).2 ["a", "b", "c"] (by decide)⟩

/-- Left strip of whitespace, Python's `str.lstrip()` on decoded text. -/
def lstripChars (l : List Char) : List Char := l.dropWhile Char.isWhitespace

/-- Right strip of whitespace, Python's `str.rstrip()` on decoded text. -/
def rstripChars (l : List Char) : List Char :=
  (l.reverse.dropWhile Char.isWhitespace).reverse

/-- Python's `str.strip()` on decoded text. -/
def stripChars (l : List Char) : List Char := rstripChars (lstripChars l)

/-- Python's `str.strip()` as a `String` operation. -/
def strStrip (s : String) : String := String.mk (stripChars s.data)

/-- Python's `str.rstrip()` as a `String` operation. -/
def strRstrip (s : String) : String := String.mk (rstripChars s.data)

/-- Whether the text ends in a newline character. -/
def endsWithNewline (s : String) : Bool := s.data.getLast? == some '\n'

/-- Modelled from the spec: the begin marker `CMD_OUTPUT_PS1_BEGIN` imported
from `openhands/tools/terminal/constants.py`, a module that is not among the
repository sources; the spec requires only a unique collision-resistant
sentinel string. -/
def CMD_OUTPUT_PS1_BEGIN : String := "\n###PS1JSON###\n"

/-- Modelled from the spec: the end marker `CMD_OUTPUT_PS1_END` imported from
`openhands/tools/terminal/constants.py`, not among the repository sources. -/
def CMD_OUTPUT_PS1_END : String := "\n###PS1END###\n"

/-- Modelled from the spec: the structured completion record
(`CmdOutputMetadata` in `openhands/tools/terminal/metadata.py`, not among the
repository sources), carrying the keys of the completion-marker wire
format. -/
structure CmdOutputMetadata where
  pid : Option Int
  exit_code : Option Int
  username : Option String
  hostname : Option String
  working_dir : Option String
  py_interpreter_path : Option String
deriving DecidableEq

/-- Shortest non-empty payload before the first occurrence of the end marker:
`takeUntilEnd e r = some p` exactly when `r = p ++ e ++ post` for some `post`
and the smallest possible non-empty `p`.  This captures the non-greedy
`(.+?)` part of the pattern in `WindowsTerminal._parse_metadata`. -/
def takeUntilEnd (e : List Char) : List Char → Option (List Char)
  | [] => none
  | c :: rest =>
    if e.isPrefixOf rest then some [c]
    else (takeUntilEnd e rest).map (c :: ·)

/-- Leftmost BEGIN…END span with a non-empty payload, the search performed by
`re.search(re.escape(BEGIN) + "(.+?)" + re.escape(END), output, re.DOTALL)` in
`WindowsTerminal._parse_metadata`: the earliest start position wins and, at
that position, the shortest payload wins. -/
def findSpan (b e : List Char) : List Char → Option (List Char)
  | [] => none
  | c :: rest =>
    if b.isPrefixOf (c :: rest) then
      match takeUntilEnd e ((c :: rest).drop b.length) with
      | some p => some p
      | none => findSpan b e rest
    else findSpan b e rest

/-- Model of `WindowsTerminal._parse_metadata`, parameterised by `parse`, the
model of `json.loads` followed by `CmdOutputMetadata(**meta_json)` (standard
library and pydantic code not among the repository sources): locate the first
BEGIN…END span, strip the payload, and parse it; a missing span or a parse
failure yields `none` instead of an error. -/
def parse_metadata (parse : String → Option CmdOutputMetadata)
    (output : String) : Option CmdOutputMetadata :=
  match findSpan CMD_OUTPUT_PS1_BEGIN.data CMD_OUTPUT_PS1_END.data output.data with
  | some payload => parse (strStrip (String.mk payload))
  | none => none

theorem takeUntilEnd_sound (e : List Char) :
    ∀ r p, takeUntilEnd e r = some p →
      p ≠ [] ∧ ∃ post, r = p ++ e ++ post := by
  intro r
  induction r with
  | nil => intro p h; simp [takeUntilEnd] at h
  | cons c rest ih =>
    intro p h
    simp only [takeUntilEnd] at h
    by_cases hpre : e.isPrefixOf rest
    · rw [if_pos hpre] at h
      obtain rfl : [c] = p := by simpa using h
      obtain ⟨post, hpost⟩ := List.isPrefixOf_iff_prefix.mp hpre
      exact ⟨by simp, post, by simp [← hpost]⟩
    · rw [if_neg hpre] at h
      obtain ⟨q, hq, rfl⟩ : ∃ q, takeUntilEnd e rest = some q ∧ c :: q = p := by
        cases htu : takeUntilEnd e rest with
        | none => rw [htu] at h; simp at h
        | some q => rw [htu] at h; exact ⟨q, rfl, by simpa using h⟩
      obtain ⟨hqne, post, hpost⟩ := ih q hq
      exact ⟨by simp, post, by simp [hpost]⟩

theorem takeUntilEnd_complete (e : List Char) :
    ∀ r, takeUntilEnd e r = none →
      ∀ p post, p ≠ [] → r ≠ p ++ e ++ post := by
  intro r
  induction r with
  | nil =>
    intro _ p post hp heq
    cases p with
    | nil => exact hp rfl
    | cons p0 ptl => simp at heq
  | cons c rest ih =>
    intro h p post hp heq
    simp only [takeUntilEnd] at h
    by_cases hpre : e.isPrefixOf rest
    · rw [if_pos hpre] at h; simp at h
    · rw [if_neg hpre] at h
      have hrest : takeUntilEnd e rest = none := by
        cases htu : takeUntilEnd e rest with
        | none => rfl
        | some q => rw [htu] at h; simp at h
      cases p with
      | nil => exact hp rfl
      | cons p0 ptl =>
        have heq2 : c = p0 ∧ rest = ptl ++ e ++ post := by
          simpa using heq
        cases ptl with
        | nil =>
          apply hpre
          apply List.isPrefixOf_iff_prefix.mpr
          exact ⟨post, by simpa using heq2.2.symm⟩
        | cons p1 ptl2 =>
          exact ih hrest (p1 :: ptl2) post (by simp) heq2.2

theorem takeUntilEnd_minimal (e : List Char) :
    ∀ r p, takeUntilEnd e r = some p →
      ∀ q post, q ≠ [] → r = q ++ e ++ post → p.length ≤ q.length := by
  intro r
  induction r with
  | nil => intro p h; simp [takeUntilEnd] at h
  | cons c rest ih =>
    intro p h q post hq heq
    simp only [takeUntilEnd] at h
    by_cases hpre : e.isPrefixOf rest
    · rw [if_pos hpre] at h
      obtain rfl : [c] = p := by simpa using h
      cases q with
      | nil => exact absurd rfl hq
      | cons q0 qtl => simp
    · rw [if_neg hpre] at h
      obtain ⟨p2, hp2, rfl⟩ : ∃ p2, takeUntilEnd e rest = some p2 ∧ c :: p2 = p := by
        cases htu : takeUntilEnd e rest with
        | none => rw [htu] at h; simp at h
        | some q2 => rw [htu] at h; exact ⟨q2, rfl, by simpa using h⟩
      cases q with
      | nil => exact absurd rfl hq
      | cons q0 qtl =>
        have heq2 : c = q0 ∧ rest = qtl ++ e ++ post := by
          simpa using heq
        cases qtl with
        | nil =>
          exfalso
          apply hpre
          apply List.isPrefixOf_iff_prefix.mpr
          exact ⟨post, by simpa using heq2.2.symm⟩
        | cons q1 qtl2 =>
          have := ih p2 hp2 (q1 :: qtl2) post (by simp) heq2.2
          simpa using Nat.succ_le_succ this

theorem findSpan_sound (b e : List Char) :
    ∀ s p, findSpan b e s = some p →
      p ≠ [] ∧ ∃ pre post, s = pre ++ b ++ p ++ e ++ post := by
  intro s
  induction s with
  | nil => intro p h; simp [findSpan] at h
  | cons c rest ih =>
    intro p h
    simp only [findSpan] at h
    by_cases hpre : b.isPrefixOf (c :: rest)
    · rw [if_pos hpre] at h
      cases htu : takeUntilEnd e ((c :: rest).drop b.length) with
      | some q =>
        rw [htu] at h
        obtain rfl : q = p := by simpa using h
        obtain ⟨hq, post, hpost⟩ := takeUntilEnd_sound e _ q htu
        obtain ⟨t, ht⟩ := List.isPrefixOf_iff_prefix.mp hpre
        have hdrop : (c :: rest).drop b.length = t := by
          rw [← ht, List.drop_left]
        have htq : t = q ++ e ++ post := hdrop.symm.trans hpost
        refine ⟨hq, [], post, ?_⟩
        rw [← ht, htq]
        simp
      | none =>
        rw [htu] at h
        obtain ⟨hq, pre, post, hs⟩ := ih _ h
        exact ⟨hq, c :: pre, post, by simp [hs]⟩
    · rw [if_neg hpre] at h
      obtain ⟨hq, pre, post, hs⟩ := ih _ h
      exact ⟨hq, c :: pre, post, by simp [hs]⟩

theorem findSpan_complete (b e : List Char) :
    ∀ s, findSpan b e s = none →
      ∀ pre p post, p ≠ [] → s ≠ pre ++ b ++ p ++ e ++ post := by
  intro s
  induction s with
  | nil =>
    intro _ pre p post hp heq
    rcases p with - | ⟨p0, ptl⟩
    · exact hp rfl
    · have hlen := congrArg List.length heq
      simp [List.length_append] at hlen
      omega
  | cons c rest ih =>
    intro h pre p post hp heq
    simp only [findSpan] at h
    by_cases hpre : b.isPrefixOf (c :: rest)
    · rw [if_pos hpre] at h
      cases htu : takeUntilEnd e ((c :: rest).drop b.length) with
      | some q => rw [htu] at h; simp at h
      | none =>
        rw [htu] at h
        cases pre with
        | nil =>
          have hdrop : (c :: rest).drop b.length = p ++ e ++ post := by
            have : (c :: rest) = b ++ (p ++ (e ++ post)) := by
              simpa [List.append_assoc] using heq
            rw [this, List.drop_left]
            simp [List.append_assoc]
          exact takeUntilEnd_complete e _ htu p post hp hdrop
        | cons c2 pre2 =>
          have heq2 : c = c2 ∧ rest = pre2 ++ b ++ p ++ e ++ post := by
            simpa using heq
          exact ih h pre2 p post hp heq2.2
    · rw [if_neg hpre] at h
      cases pre with
      | nil =>
        apply hpre
        apply List.isPrefixOf_iff_prefix.mpr
        exact ⟨p ++ e ++ post, by simpa [List.append_assoc] using heq.symm⟩
      | cons c2 pre2 =>
        have heq2 : c = c2 ∧ rest = pre2 ++ b ++ p ++ e ++ post := by
          simpa using heq
        exact ih h pre2 p post hp heq2.2

theorem findSpan_first_nongreedy (b e : List Char) :
    ∀ s p, findSpan b e s = some p →
      ∃ pre post, s = pre ++ b ++ p ++ e ++ post ∧
        (∀ pre2 p2 post2, p2 ≠ [] →
            s = pre2 ++ b ++ p2 ++ e ++ post2 → pre.length ≤ pre2.length) ∧
        (∀ p2 post2, p2 ≠ [] →
            s = pre ++ b ++ p2 ++ e ++ post2 → p.length ≤ p2.length) := by
  intro s
  induction s with
  | nil => intro p h; simp [findSpan] at h
  | cons c rest ih =>
    intro p h
    simp only [findSpan] at h
    by_cases hpre : b.isPrefixOf (c :: rest)
    · rw [if_pos hpre] at h
      cases htu : takeUntilEnd e ((c :: rest).drop b.length) with
      | some q =>
        rw [htu] at h
        obtain rfl : q = p := by simpa using h
        obtain ⟨hq, post, hpost⟩ := takeUntilEnd_sound e _ q htu
        obtain ⟨t, ht⟩ := List.isPrefixOf_iff_prefix.mp hpre
        have hdrop : (c :: rest).drop b.length = t := by
          rw [← ht, List.drop_left]
        have htq : t = q ++ e ++ post := hdrop.symm.trans hpost
        refine ⟨[], post, ?_, ?_, ?_⟩
        · rw [← ht, htq]; simp
        · intro pre2 p2 post2 _ _; simp
        · intro p2 post2 hp2 heq2
          apply takeUntilEnd_minimal e _ q htu p2 post2 hp2
          have : (c :: rest) = b ++ (p2 ++ (e ++ post2)) := by
            simpa [List.append_assoc] using heq2
          rw [this, List.drop_left] at hdrop ⊢
          simp [List.append_assoc]
      | none =>
        rw [htu] at h
        obtain ⟨pre, post, hs, hfirst, hshort⟩ := ih p h
        refine ⟨c :: pre, post, by simp [hs], ?_, ?_⟩
        · intro pre2 p2 post2 hp2 heq2
          cases pre2 with
          | nil =>
            exfalso
            have hdrop : (c :: rest).drop b.length = p2 ++ e ++ post2 := by
              have : (c :: rest) = b ++ (p2 ++ (e ++ post2)) := by
                simpa [List.append_assoc] using heq2
              rw [this, List.drop_left]
              simp [List.append_assoc]
            exact takeUntilEnd_complete e _ htu p2 post2 hp2 hdrop
          | cons c2 pre2tl =>
            have heq3 : c = c2 ∧ rest = pre2tl ++ b ++ p2 ++ e ++ post2 := by
              simpa using heq2
            have := hfirst pre2tl p2 post2 hp2 heq3.2
            simpa using Nat.succ_le_succ this
        · intro p2 post2 hp2 heq2
          have heq3 : rest = pre ++ b ++ p2 ++ e ++ post2 := by
            simpa using heq2
          exact hshort p2 post2 hp2 heq3
    · rw [if_neg hpre] at h
      obtain ⟨pre, post, hs, hfirst, hshort⟩ := ih p h
      refine ⟨c :: pre, post, by simp [hs], ?_, ?_⟩
      · intro pre2 p2 post2 hp2 heq2
        cases pre2 with
        | nil =>
          exfalso
          apply hpre
          apply List.isPrefixOf_iff_prefix.mpr
          exact ⟨p2 ++ e ++ post2, by simpa [List.append_assoc] using heq2.symm⟩
        | cons c2 pre2tl =>
          have heq3 : c = c2 ∧ rest = pre2tl ++ b ++ p2 ++ e ++ post2 := by
            simpa using heq2
          have := hfirst pre2tl p2 post2 hp2 heq3.2
          simpa using Nat.succ_le_succ this
      · intro p2 post2 hp2 heq2
        have heq3 : rest = pre ++ b ++ p2 ++ e ++ post2 := by
          simpa using heq2
        exact hshort p2 post2 hp2 heq3

/-- C5: parsing the completion record locates the first BEGIN…END span via a
non-greedy match across newlines and decodes the payload between the markers;
whenever the markers are absent, or the payload between them fails to parse,
the result is `none` (treated as "not yet complete") and never an error: if no
BEGIN…END decomposition of the output exists the parse yields `none`, and when
the span search succeeds it returns a genuine earliest such span whose parse
failure again yields `none`. -/
theorem c5_parse_metadata_first_span_and_failure_is_none
    (parse : String → Option CmdOutputMetadata) (output : String) :
    ((¬ ∃ pre p post, p ≠ ([] : List Char) ∧
        output.data = pre ++ CMD_OUTPUT_PS1_BEGIN.data ++ p
          ++ CMD_OUTPUT_PS1_END.data ++ post) →
      parse_metadata parse output = none)
    ∧ (∀ p, findSpan CMD_OUTPUT_PS1_BEGIN.data CMD_OUTPUT_PS1_END.data
          output.data = some p →
        (parse (strStrip (String.mk p)) = none → parse_metadata parse output = none)
        ∧ p ≠ []
        ∧ ∃ pre post,
            output.data = pre ++ CMD_OUTPUT_PS1_BEGIN.data ++ p
              ++ CMD_OUTPUT_PS1_END.data ++ post
            ∧ ∀ pre2 p2 post2, p2 ≠ [] →
                output.data = pre2 ++ CMD_OUTPUT_PS1_BEGIN.data ++ p2
                  ++ CMD_OUTPUT_PS1_END.data ++ post2 →
                pre.length ≤ pre2.length) := by
  constructor
  · intro hno
    cases hfs : findSpan CMD_OUTPUT_PS1_BEGIN.data CMD_OUTPUT_PS1_END.data
        output.data with
    | none => simp [parse_metadata, hfs]
    | some p =>
      exfalso
      obtain ⟨hp, pre, post, hs⟩ := findSpan_sound _ _ _ p hfs
      exact hno ⟨pre, p, post, hp, hs⟩
  · intro p hfs
    refine ⟨?_, ?_, ?_⟩
    · intro hparse
      simp [parse_metadata, hfs, hparse]
    · exact (findSpan_sound _ _ _ p hfs).1
    · obtain ⟨pre, post, hs, hfirst, hshort⟩ :=
        findSpan_first_nongreedy _ _ _ p hfs
      exact ⟨pre, post, hs, hfirst⟩

theorem c5_parse_metadata_witness :
    parse_metadata (fun _ => none)
      "a\n###PS1JSON###\nzz\n###PS1END###\nb" = none :=
  ((c5_parse_metadata_first_span_and_failure_is_none (fun _ => none)
      "a\n###PS1JSON###\nzz\n###PS1END###\nb").2
    ['z', 'z'] (by decide)).1 rfl

/-- Python's substring containment `needle in hay` on decoded text. -/
def containsSub (needle : List Char) : List Char → Bool
  | [] => needle.isEmpty
  | c :: rest => needle.isPrefixOf (c :: rest) || containsSub needle rest

/-- Status of `self.process`: `noProc` is `process is None`, `running` means
`process.poll() is None`, and `exited` a process whose exit status is already
available. -/
inductive ProcState where
  | noProc
  | running
  | exited
deriving DecidableEq

/-- Explicit state of one `WindowsTerminal` object.  `stdin_writes` logs the
data successfully written to the child process's stdin, `stdin_ok` says
whether such writes currently succeed (a closed or broken pipe makes them
fail), and `log` records logger output. -/
structure WinTerm where
  proc : ProcState
  stdin_ok : Bool
  command_running : Bool
  output_buffer : List String
  initialized : Bool
  closed : Bool
  stop_reader : Bool
  stdin_writes : List String
  log : List String
deriving DecidableEq

/-- The Ctrl-C character sent by `interrupt`. -/
def CTRL_C : String := "\x03"

/-- Key sequences treated as special keys by `send_keys`. -/
def SPECIAL_KEYS : List String := [CTRL_C, "C-c", "C-C"]

/-- Model of `WindowsTerminal._is_special_key`. -/
def is_special_key (text : String) : Bool := SPECIAL_KEYS.contains text

/-- Model of `WindowsTerminal._escape_powershell_string`: in PowerShell
single-quoted strings only the single quote needs escaping, by doubling it. -/
def escape_powershell_string (s : String) : String :=
  s.replace "\x27" "\x27\x27"

/-- PowerShell metadata command appended to every regular command by
`WindowsTerminal.send_keys`, with the stripped markers escaped for PowerShell
single quotes. -/
def metadata_cmd : String :=
  "; Write-Host \x27" ++ escape_powershell_string (strStrip CMD_OUTPUT_PS1_BEGIN)
    ++ "\x27; "
    ++ "$exit_code = if ($?) \x7b "
    ++ "if ($null -ne $LASTEXITCODE) \x7b $LASTEXITCODE \x7d "
    ++ "else \x7b 0 \x7d \x7d else \x7b 1 \x7d; "
    ++ "$py_path = (Get-Command python -ErrorAction "
    ++ "SilentlyContinue | Select-Object -ExpandProperty Source); "
    ++ "$meta = @\x7bpid=$PID; exit_code=$exit_code; "
    ++ "username=$env:USERNAME; "
    ++ "hostname=$env:COMPUTERNAME; "
    ++ "working_dir=(Get-Location).Path.Replace(\x27\\\x27, \x27/\x27); "
    ++ "py_interpreter_path=if ($py_path) \x7b $py_path \x7d "
    ++ "else \x7b $null \x7d\x7d; "
    ++ "Write-Host (ConvertTo-Json $meta -Compress); "
    ++ "Write-Host \x27" ++ escape_powershell_string (strStrip CMD_OUTPUT_PS1_END)
    ++ "\x27"

/-- Error surfaced by `send_keys`
(`RuntimeError("Cannot send keys: terminal process is not running")`), the
`NotRunningError` of the spec's error taxonomy. -/
inductive TermErr where
  | notRunning
deriving DecidableEq

/-- Model of `WindowsTerminal._write_to_stdin`: silently skipped when there is
no process, and a failing write (`BrokenPipeError`/`OSError`) is caught and
logged.  The boolean reports whether the data actually reached stdin; the
Python method returns `None`, so its callers never see this flag. -/
def write_to_stdin (t : WinTerm) (data : String) : WinTerm × Bool :=
  if t.proc = .noProc then (t, false)
  else if t.stdin_ok then
    ({ t with stdin_writes := t.stdin_writes ++ [data] }, true)
  else
    ({ t with log := t.log ++ ["Failed to write to stdin"] }, false)

/-- Model of `WindowsTerminal.send_keys`: the guard raises before anything
else happens when the process is not alive; otherwise a regular command
(neither a special key nor internal) first clears the stale buffer, a
non-blank regular command additionally sets the command-running flag and gets
the metadata marker command appended, a newline is added when requested, and
the result is written to stdin. -/
def send_keys (t : WinTerm) (text : String) (enter : Bool)
    (internal : Bool) : Except TermErr WinTerm :=
  if t.proc ≠ .running then .error .notRunning
  else
    let special := is_special_key text
    let t1 := if !special && !internal then { t with output_buffer := [] }
              else t
    let isCmd := !special && !(stripChars text.data).isEmpty && !internal
    let t2 := if isCmd then { t1 with command_running := true } else t1
    let payload := if isCmd then strRstrip text ++ metadata_cmd else text
    let payload2 := if enter && !endsWithNewline payload then payload ++ "\n"
                    else payload
    .ok (write_to_stdin t2 payload2).1

/-- Model of `WindowsTerminal.read_screen` on the whole backend state. -/
def read_screen (t : WinTerm) : String := read_screen_buf t.output_buffer

/-- Model of `WindowsTerminal.is_running`: false when uninitialized or
without a process; an exited process or a visible end marker clears the
command-running flag and yields false; otherwise the flag itself is
returned. -/
def is_running (t : WinTerm) : WinTerm × Bool :=
  if t.initialized = false ∨ t.proc = .noProc then (t, false)
  else if t.proc = .exited then ({ t with command_running := false }, false)
  else if containsSub (rstripChars CMD_OUTPUT_PS1_END.data) (read_screen t).data
  then ({ t with command_running := false }, false)
  else (t, t.command_running)

/-- Model of `WindowsTerminal.interrupt`: delivery is only attempted while
the process is alive; the Ctrl-C character goes through `send_keys`, the
command-running flag is cleared and `true` is returned.  Write failures are
swallowed inside `_write_to_stdin`, so the `true` branch is taken whenever
the process is alive. -/
def interrupt (t : WinTerm) : WinTerm × Bool :=
  if t.proc = .running then
    match send_keys t CTRL_C false false with
    | .ok t1 => ({ t1 with command_running := false }, true)
    | .error _ =>
      ({ t with log := t.log ++ ["Failed to send interrupt"] }, false)
  else (t, false)

/-- Choice of which fallible cleanup steps of `close` fail; every failure is
caught inside `close` itself. -/
structure CloseEnv where
  stdin_close_fails : Bool
  stdout_close_fails : Bool
  join_times_out : Bool
  wait_times_out : Bool
  terminate_raises : Bool
deriving DecidableEq

/-- Model of `WindowsTerminal.close`: a second call returns at the `_closed`
guard; each cleanup step catches its own failure and logs it, so whatever
subset of steps fails the backend ends with the reader stopped, stdin
unusable, the process torn down and `closed = true`. -/
def close (env : CloseEnv) (t : WinTerm) : WinTerm :=
  if t.closed then t
  else
    let t1 := { t with stop_reader := true }
    let t2 := if t1.proc ≠ .noProc ∧ env.stdin_close_fails = true
              then { t1 with log := t1.log ++ ["Error closing stdin"] } else t1
    let t3 := { t2 with stdin_ok := false }
    let t4 := if t3.proc ≠ .noProc ∧ env.stdout_close_fails = true
              then { t3 with log := t3.log ++ ["Error closing stdout"] } else t3
    let t5 := if env.join_times_out = true
              then { t4 with log := t4.log
                      ++ ["Reader thread did not terminate within timeout"] }
              else t4
    let t6 := if t5.proc ≠ .noProc ∧ env.wait_times_out = true
              then { t5 with log := t5.log
                      ++ ["Process did not terminate, forcing kill"] }
              else t5
    let t7 := if t6.proc ≠ .noProc ∧ env.terminate_raises = true
              then { t6 with log := t6.log ++ ["Error terminating process"] }
              else t6
    { t7 with proc := .noProc, closed := true }

/-- Modelled from the spec: the action record handed to the session
controller (`TerminalAction` in `definition.py`, a module that is not among
the repository sources). -/
structure TerminalAction where
  command : String
  is_input : Bool
  reset : Bool
deriving DecidableEq

/-- Result of one session-controller `execute` call. -/
inductive ExecResult where
  | validationError
  | notRunning
  | ok (t : WinTerm)
deriving DecidableEq

/-- Modelled from the spec: `TerminalSession.execute`
(`terminal_session.py`, not among the repository sources).  Spec §4.4:
"fails if `action.is_input && action.reset`", and the validation error is
surfaced immediately, before any I/O is attempted; a reset restarts the
backend with a fresh process and cleared buffer; otherwise the command is
sent through the backend. -/
def execute (t : WinTerm) (a : TerminalAction) : ExecResult :=
  if a.is_input && a.reset then .validationError
  else if a.reset then
    .ok { t with proc := .running, stdin_ok := true, command_running := false,
                 output_buffer := [], initialized := true, closed := false,
                 stop_reader := false }
  else
    match send_keys t a.command true false with
    | .error .notRunning => .notRunning
    | .ok t1 => .ok t1

theorem interrupt_not_running (t : WinTerm) (h : t.proc ≠ .running) :
    interrupt t = (t, false) := by
  simp [interrupt, h]

theorem interrupt_running_fields (t : WinTerm) (h : t.proc = .running) :
    (interrupt t).2 = true
      ∧ (interrupt t).1.proc = t.proc
      ∧ (interrupt t).1.initialized = t.initialized
      ∧ (interrupt t).1.output_buffer = t.output_buffer
      ∧ (interrupt t).1.command_running = false
      ∧ (t.stdin_ok = false → (interrupt t).1.stdin_writes = t.stdin_writes) := by
  have hsp : is_special_key CTRL_C = true := by decide
  by_cases hio : t.stdin_ok <;>
    simp [interrupt, send_keys, write_to_stdin, h, hsp, hio]

theorem is_running_snd (t : WinTerm) :
    (is_running t).2
      = if t.initialized = false ∨ t.proc = .noProc then false
        else if t.proc = .exited then false
        else if containsSub (rstripChars CMD_OUTPUT_PS1_END.data)
            (read_screen t).data = true then false
        else t.command_running := by
  unfold is_running
  split_ifs <;> simp_all

theorem is_running_congr (t1 t2 : WinTerm)
    (h1 : t1.initialized = t2.initialized) (h2 : t1.proc = t2.proc)
    (h3 : t1.output_buffer = t2.output_buffer)
    (h4 : t1.command_running = t2.command_running) :
    (is_running t1).2 = (is_running t2).2 := by
  rw [is_running_snd, is_running_snd]
  unfold read_screen
  rw [h1, h2, h3, h4]

theorem is_running_false_of_cr_false (t : WinTerm)
    (h : t.command_running = false) : (is_running t).2 = false := by
  rw [is_running_snd]
  split_ifs <;> simp [h]

/-- State used to refute the claimed interrupt/delivery equivalence: the
process is alive but its stdin pipe is broken, so writes to stdin fail. -/
def brokenPipeState : WinTerm :=
  { proc := .running, stdin_ok := false, command_running := true,
    output_buffer := [], initialized := true, closed := false,
    stop_reader := false, stdin_writes := [], log := [] }

/-- C1 counterexample: with the process alive but its stdin pipe broken, the
Ctrl-C write fails inside `_write_to_stdin`, where the failure is caught and
only logged, yet `interrupt` still returns `true` while nothing was delivered
to stdin — refuting "returns true if and only if delivery of the interrupt
signal to the foreground process succeeded". -/
theorem c1_interrupt_counterexample :
    (interrupt brokenPipeState).2 = true
      ∧ (interrupt brokenPipeState).1.stdin_writes = []
      ∧ (interrupt brokenPipeState).1.log = ["Failed to write to stdin"] := by
  decide

/-- C1 (amended): `interrupt` never blocks (it is a total function of the
state); when the backend process has exited or was never started it returns
`false` without attempting delivery and with the state unchanged; when the
process is alive it attempts the Ctrl-C write and returns `true` whether or
not the write to stdin succeeded (write failures are swallowed and logged);
and calling it when no command is running leaves `is_busy` unchanged. -/
theorem c1_interrupt_amended (t : WinTerm) :
    (t.proc ≠ .running → interrupt t = (t, false))
      ∧ (t.proc = .running →
          (interrupt t).2 = true ∧ (interrupt t).1.command_running = false)
      ∧ (t.command_running = false →
          (is_running (interrupt t).1).2 = (is_running t).2) := by
  refine ⟨interrupt_not_running t, ?_, ?_⟩
  · intro h
    obtain ⟨h1, -, -, -, h5, -⟩ := interrupt_running_fields t h
    exact ⟨h1, h5⟩
  · intro hcr
    by_cases h : t.proc = .running
    · obtain ⟨-, h2, h3, h4, h5, -⟩ := interrupt_running_fields t h
      exact is_running_congr _ _ h3 h2 h4 (h5.trans hcr.symm)
    · rw [interrupt_not_running t h]

/-- Healthy idle backend: alive, stdin working, no command in flight. -/
def idleState : WinTerm :=
  { proc := .running, stdin_ok := true, command_running := false,
    output_buffer := [], initialized := true, closed := false,
    stop_reader := false, stdin_writes := [], log := [] }

theorem c1_interrupt_amended_witness :
    idleState.command_running = false
      ∧ (interrupt idleState).2 = true
      ∧ (is_running (interrupt idleState).1).2 = (is_running idleState).2 :=
  ⟨rfl, ((c1_interrupt_amended idleState).2.1 rfl).1,
    (c1_interrupt_amended idleState).2.2 rfl⟩

/-- C4: for every call to `send_keys`, if the backend process is not alive
(never started, or its exit status is already available), the call fails with
the not-running error; the guard precedes every other step of `send_keys`, so
no state change and in particular no write to the input stream happens (no
successful state is produced at all). -/
theorem c4_send_keys_not_running (t : WinTerm) (text : String)
    (enter internal : Bool) (h : t.proc ≠ .running) :
    send_keys t text enter internal = .error .notRunning := by
  simp [send_keys, h]

/-- Backend whose process has already exited. -/
def exitedState : WinTerm :=
  { proc := .exited, stdin_ok := true, command_running := false,
    output_buffer := [], initialized := true, closed := false,
    stop_reader := false, stdin_writes := [], log := [] }

theorem c4_send_keys_not_running_witness :
    exitedState.proc ≠ ProcState.running
      ∧ send_keys exitedState "echo hello" true false = .error .notRunning :=
  ⟨by decide,
    c4_send_keys_not_running exitedState "echo hello" true false (by decide)⟩

/-- C6: on an initialized backend, `is_running` returns true exactly when the
process is alive, the stripped end marker does not occur in the buffered
screen contents, and the command-running flag (set when the last command was
sent, cleared once the marker is observed) is still set; in particular an
exited or missing process, or a visible end marker, forces false. -/
theorem c6_is_busy_iff (t : WinTerm) :
    (t.initialized = true →
      ((is_running t).2 = true ↔
        (t.proc = .running
          ∧ containsSub (rstripChars CMD_OUTPUT_PS1_END.data)
              (read_screen t).data = false
          ∧ t.command_running = true)))
    ∧ (t.proc ≠ .running → (is_running t).2 = false)
    ∧ (containsSub (rstripChars CMD_OUTPUT_PS1_END.data)
          (read_screen t).data = true → (is_running t).2 = false) := by
  refine ⟨?_, ?_, ?_⟩
  · intro hinit
    rw [is_running_snd, hinit]
    cases hp : t.proc <;>
      cases hcs : containsSub (rstripChars CMD_OUTPUT_PS1_END.data)
          (read_screen t).data <;>
        simp [hp, hcs]
  · intro hp
    rw [is_running_snd]
    cases hp2 : t.proc
    · simp [hp2]
    · exact absurd hp2 hp
    · simp [hp2]
  · intro hcs
    rw [is_running_snd]
    split_ifs with h1 h2 <;> simp_all

/-- Initialized busy backend with plain output in the buffer. -/
def busyState : WinTerm :=
  { proc := .running, stdin_ok := true, command_running := true,
    output_buffer := ["out"], initialized := true, closed := false,
    stop_reader := false, stdin_writes := [], log := [] }

theorem c6_is_busy_iff_witness : (is_running busyState).2 = true :=
  ((c6_is_busy_iff busyState).1 rfl).mpr ⟨rfl, by decide, rfl⟩

theorem close_sets_closed (env : CloseEnv) (t : WinTerm) :
    (close env t).closed = true := by
  by_cases h : t.closed = true
  · simp [close, h]
  · simp [close, h]

theorem close_of_closed (env : CloseEnv) (t : WinTerm) (h : t.closed = true) :
    close env t = t := by
  simp [close, h]

/-- C7: `close` is idempotent and best-effort: under every combination of
failing cleanup steps the backend ends marked closed, a first close of an
open backend tears the process down, and a second `close` (under any failure
environment) is a no-op returning the state unchanged — there is no failing
branch at all, so it can never raise. -/
theorem c7_close_idempotent_best_effort (env env2 : CloseEnv) (t : WinTerm) :
    (close env t).closed = true
      ∧ (t.closed = false → (close env t).proc = .noProc)
      ∧ close env2 (close env t) = close env t := by
  refine ⟨close_sets_closed env t, ?_, ?_⟩
  · intro hf
    simp [close, hf]
  · exact close_of_closed env2 _ (close_sets_closed env t)

/-- Open backend used to exercise `close`. -/
def openState : WinTerm :=
  { proc := .running, stdin_ok := true, command_running := true,
    output_buffer := ["tail"], initialized := true, closed := false,
    stop_reader := false, stdin_writes := [], log := [] }

/-- Cleanup environment in which every fallible step fails. -/
def allFailEnv : CloseEnv :=
  { stdin_close_fails := true, stdout_close_fails := true,
    join_times_out := true, wait_times_out := true, terminate_raises := true }

/-- Cleanup environment in which no step fails. -/
def noFailEnv : CloseEnv :=
  { stdin_close_fails := false, stdout_close_fails := false,
    join_times_out := false, wait_times_out := false,
    terminate_raises := false }

theorem c7_close_witness :
    openState.closed = false
      ∧ (close allFailEnv openState).proc = ProcState.noProc
      ∧ close noFailEnv (close allFailEnv openState)
          = close allFailEnv openState :=
  ⟨rfl,
    (c7_close_idempotent_best_effort allFailEnv noFailEnv openState).2.1 rfl,
    (c7_close_idempotent_best_effort allFailEnv noFailEnv openState).2.2⟩

/-- C8: an action with both `reset` and `is_input` set fails validation
immediately: `execute` returns the validation error straight from its first
guard, before any branch that touches the backend, so no I/O is performed and
the session state is left unchanged (the error result carries no new
state). -/
theorem c8_reset_with_is_input_validation (t : WinTerm) (a : TerminalAction)
    (h1 : a.is_input = true) (h2 : a.reset = true) :
    execute t a = .validationError := by
  simp [execute, h1, h2]

/-- Session backend state used for the reset/is-input validation check. -/
def sessionState : WinTerm :=
  { proc := .running, stdin_ok := true, command_running := false,
    output_buffer := [], initialized := true, closed := false,
    stop_reader := false, stdin_writes := [], log := [] }

theorem c8_reset_with_is_input_validation_witness :
    execute sessionState { command := "", is_input := true, reset := true }
      = ExecResult.validationError :=
  c8_reset_with_is_input_validation sessionState
    { command := "", is_input := true, reset := true } rfl rfl

/-- C10: a successful interrupt unconditionally clears the command-running
flag: whenever `interrupt` returns `true`, the resulting state has
`command_running = false` and `is_running` reports false — even though the
interrupt is only advisory and the foreground command may still be executing
in the shell. -/
theorem c10_interrupt_clears_busy (t : WinTerm)
    (h : (interrupt t).2 = true) :
    (interrupt t).1.command_running = false
      ∧ (is_running (interrupt t).1).2 = false := by
  by_cases hp : t.proc = .running
  · obtain ⟨-, -, -, -, h5, -⟩ := interrupt_running_fields t hp
    exact ⟨h5, is_running_false_of_cr_false _ h5⟩
  · rw [interrupt_not_running t hp] at h
    simp at h

/-- Busy backend used to exercise a successful interrupt. -/
def busyStateTen : WinTerm :=
  { proc := .running, stdin_ok := true, command_running := true,
    output_buffer := ["busy"], initialized := true, closed := false,
    stop_reader := false, stdin_writes := [], log := [] }

theorem c10_interrupt_clears_busy_witness :
    (interrupt busyStateTen).2 = true
      ∧ (is_running (interrupt busyStateTen).1).2 = false :=
  ⟨by decide, (c10_interrupt_clears_busy busyStateTen (by decide)).2⟩

end WindowsTerminalModel
